import Mathlib

/-!
Verification of the `ne-semver` JavaScript library (`dist/semver.browser.js`)
against its natural-language specification.

The development shallowly embeds the library: JavaScript numbers are modelled
as rationals extended with NaN and the two infinities, JavaScript primitive
values as an inductive type, the anchored SemVer 2.0 regular expression as a
deterministic string parser proved-equivalent by construction (see the comment
at `semverExec`), and the mutable `SemVer` class as a record with explicit
state passing: each mutating method returns the pair of its JavaScript return
value and the post-call instance state.

Where engine number behaviour matters to a claim it is modelled: string-to-
number conversion covers the full `ToNumber` literal grammar (decimal with
fraction and exponent, hexadecimal, binary, octal, `Infinity`, Unicode
whitespace trimming), and number-to-string rendering switches to exponential
notation at `1e21` as `Number::toString` does. The one remaining idealisation
is that arithmetic and `parseInt` are exact rather than rounded to binary64;
every theorem whose truth depends on magnitudes therefore carries an explicit
safe-integer bound (below `2^53`, where doubles are exact), and the round-trip
claim is corrected accordingly rather than stated universally.
-/

namespace NeSemver

/-! ## Decimal digit strings -/

/-- Numeric value of an ASCII decimal digit character. -/
def digitVal (c : Char) : Nat := c.toNat - 48

/-- ASCII character of a decimal digit value. -/
def digitChar (d : Nat) : Char := Char.ofNat (48 + d)

/-- Base-10 value of a big-endian string of decimal digits. This is what
JavaScript `parseInt` computes on a string consisting solely of digits
(the only shape the SemVer grammar ever captures for `major`/`minor`/
`patch`), exactly so for values up to `Number.MAX_SAFE_INTEGER` (below
`2^53`); past that the engine rounds to the nearest double while this model
stays exact, which is why the round-trip theorem below is stated only for
safe-integer parts. -/
def charsToNat (cs : List Char) : Nat := Nat.ofDigits 10 ((cs.map digitVal).reverse)

/-- Little-endian decimal digits of `n`, with explicit structural fuel so
that concrete instances reduce inside `decide`. -/
def natDigitsAux : Nat → Nat → List Char
  | 0, _ => []
  | _ + 1, 0 => []
  | fuel + 1, n + 1 => digitChar ((n + 1) % 10) :: natDigitsAux fuel ((n + 1) / 10)

/-- Big-endian decimal digit characters of a natural number. -/
def natDigitChars (n : Nat) : List Char :=
  if n = 0 then ['0'] else (natDigitsAux n n).reverse

/-- Plain decimal rendering of a natural number. -/
def natToString (n : Nat) : String := ⟨natDigitChars n⟩

/-- Drop trailing `0` characters (the insignificant zeros of an exponential
mantissa). -/
def stripTrailingZeros (ds : List Char) : List Char :=
  (ds.reverse.dropWhile (fun c => c = '0')).reverse

/-- Exponential rendering `d.fffe+NN` (fraction omitted when empty), as
JavaScript `Number::toString` produces for magnitudes of at least `1e21`:
e.g. `String(1e21) = "1e+21"`. -/
def expNotation (n : Nat) : String :=
  let ds := natDigitChars n
  let frac := stripTrailingZeros ds.tail
  ⟨[ds.headD '0']⟩ ++ (if frac.isEmpty then "" else "." ++ ⟨frac⟩) ++
    "e+" ++ natToString (ds.length - 1)

/-- JavaScript rendering of a nonnegative integer value: full decimal digits
below `1e21`, exponential notation from `1e21` upward. -/
def natNumToString (n : Nat) : String :=
  if n < 10 ^ 21 then natToString n else expNotation n

/-- JavaScript rendering of an integer value (sign, then magnitude). -/
def intToString (i : Int) : String :=
  if i < 0 then "-" ++ natNumToString i.natAbs else natNumToString i.natAbs

/-! ## JavaScript numbers

JavaScript numbers are IEEE-754 doubles. The embedding idealises the finite
doubles as arbitrary rationals (exact arithmetic, no rounding to 53-bit
precision, no negative zero) and keeps the special values NaN, +Infinity and
-Infinity explicit, since the library's `isFinite`/`isNaN` checks and the
division operator distinguish them. The idealisation coincides with the
engine on safe integers (magnitude below `2^53`) and their arithmetic within
that range; theorems that would be sensitive to rounding above that range
state explicit safe-integer bounds instead of relying on exactness there. -/

inductive JSNum where
  | nan : JSNum
  | posInf : JSNum
  | negInf : JSNum
  | num : ℚ → JSNum
deriving DecidableEq

/-- JavaScript `isFinite` on a number (the library only ever applies it to
its numeric `by` argument). -/
def JSNum.isFinite : JSNum → Bool
  | .num _ => true
  | _ => false

/-- JavaScript `isNaN` on a number. -/
def JSNum.isNaN : JSNum → Bool
  | .nan => true
  | _ => false

/-- JavaScript unary negation on numbers. -/
def JSNum.neg : JSNum → JSNum
  | .nan => .nan
  | .posInf => .negInf
  | .negInf => .posInf
  | .num q => .num (-q)

/-- JavaScript numeric addition (NaN propagates; opposite infinities give NaN). -/
def JSNum.add : JSNum → JSNum → JSNum
  | .nan, _ => .nan
  | _, .nan => .nan
  | .posInf, .negInf => .nan
  | .negInf, .posInf => .nan
  | .posInf, _ => .posInf
  | _, .posInf => .posInf
  | .negInf, _ => .negInf
  | _, .negInf => .negInf
  | .num a, .num b => .num (a + b)

/-- JavaScript numeric subtraction, defined (as in the ECMAScript spec) as
addition of the negation. -/
def JSNum.sub (a b : JSNum) : JSNum := a.add b.neg

/-- JavaScript numeric multiplication. -/
def JSNum.mul : JSNum → JSNum → JSNum
  | .nan, _ => .nan
  | _, .nan => .nan
  | .posInf, .posInf => .posInf
  | .posInf, .negInf => .negInf
  | .negInf, .posInf => .negInf
  | .negInf, .negInf => .posInf
  | .posInf, .num b => if 0 < b then .posInf else if b < 0 then .negInf else .nan
  | .num a, .posInf => if 0 < a then .posInf else if a < 0 then .negInf else .nan
  | .negInf, .num b => if 0 < b then .negInf else if b < 0 then .posInf else .nan
  | .num a, .negInf => if 0 < a then .negInf else if a < 0 then .posInf else .nan
  | .num a, .num b => .num (a * b)

/-- JavaScript numeric division. Division by zero yields a signed infinity or
NaN (negative zero is not modelled: zero is treated as positive zero). -/
def JSNum.div : JSNum → JSNum → JSNum
  | .nan, _ => .nan
  | _, .nan => .nan
  | .posInf, .posInf => .nan
  | .posInf, .negInf => .nan
  | .negInf, .posInf => .nan
  | .negInf, .negInf => .nan
  | .posInf, .num b => if b < 0 then .negInf else .posInf
  | .negInf, .num b => if b < 0 then .posInf else .negInf
  | .num _, .posInf => .num 0
  | .num _, .negInf => .num 0
  | .num a, .num b =>
    if b = 0 then (if 0 < a then .posInf else if a < 0 then .negInf else .nan)
    else .num (a / b)

/-! Decimal rendering of a rational with a fractional part. JavaScript prints
the shortest decimal that round-trips the double; for the terminating
fractions the library can actually produce this is the exact expansion, which
the fuelled long division below computes (truncated past 30 places for
non-terminating expansions, and without the sub-`1e-6` exponential form —
no claim stringifies a fractional value). Integer values use `intToString`,
which does model the `1e21` exponential-notation threshold. -/

/-- Fuelled decimal expansion of a rational in the interval `[0, 1)`. -/
def fracDigits : Nat → ℚ → List Char
  | 0, _ => []
  | fuel + 1, x =>
    if x = 0 then []
    else
      let y := x * 10
      digitChar (Int.toNat ⌊y⌋) :: fracDigits fuel (y - ⌊y⌋)

/-- Decimal rendering of a rational (JavaScript `String` on a finite number). -/
def ratToString (q : ℚ) : String :=
  if q.den = 1 then intToString q.num
  else
    (if q < 0 then "-" else "") ++ intToString ⌊|q|⌋ ++ "." ++ ⟨fracDigits 30 (|q| - ⌊|q|⌋)⟩

/-- JavaScript `String` applied to a number. -/
def jsNumToString : JSNum → String
  | .nan => "NaN"
  | .posInf => "Infinity"
  | .negInf => "-Infinity"
  | .num q => ratToString q

/-! ## JavaScript primitive values

The library's public entry points accept arbitrary values and immediately
coerce them (`String(string)` in the constructor and in `test`, `Number`/
`String` in `adjustTo`), so the embedding models the JavaScript primitives
relevant to those coercions. -/

inductive JSValue where
  | undefined : JSValue
  | null : JSValue
  | bool : Bool → JSValue
  | num : JSNum → JSValue
  | str : String → JSValue
deriving DecidableEq

/-- Characters stripped by ECMAScript `ToNumber` string trimming: the
`WhiteSpace` production (TAB, VT, FF, SP, NBSP, ZWNBSP and the Unicode
space separators) together with the line terminators LF, CR, LS, PS. -/
def isWhitespaceJS (c : Char) : Bool :=
  [9, 10, 11, 12, 13, 32, 160, 5760, 8192, 8193, 8194, 8195, 8196, 8197, 8198,
    8199, 8200, 8201, 8202, 8232, 8233, 8239, 8287, 12288, 65279].contains c.toNat

/-- The optionally signed digit run of an `ExponentPart`: `[+-] digits`,
at least one digit, consuming the whole input. -/
def parseExpDigits (cs : List Char) : Option Int :=
  match cs with
  | '+' :: ds => if !ds.isEmpty && ds.all (fun c => c.isDigit) then
      some (charsToNat ds) else none
  | '-' :: ds => if !ds.isEmpty && ds.all (fun c => c.isDigit) then
      some (-(charsToNat ds : Int)) else none
  | ds => if !ds.isEmpty && ds.all (fun c => c.isDigit) then
      some (charsToNat ds) else none

/-- An optional `ExponentPart` closing the literal: empty means exponent 0,
otherwise `e`/`E` followed by signed digits. -/
def parseExponent (cs : List Char) : Option Int :=
  match cs with
  | [] => some 0
  | 'e' :: rest => parseExpDigits rest
  | 'E' :: rest => parseExpDigits rest
  | _ => none

/-- `StrUnsignedDecimalLiteral` of ECMAScript string-to-number conversion:
`digits [. digits] [exponent]` or `. digits [exponent]`, with at least one
mantissa digit; anything else is NaN. -/
def parseDecimal (sign : ℚ) (cs : List Char) : JSNum :=
  let intPart := cs.takeWhile (fun c => c.isDigit)
  let rest := cs.dropWhile (fun c => c.isDigit)
  let mantissaExp : Option (ℚ × Int) :=
    match rest with
    | [] => if intPart.isEmpty then none else some ((charsToNat intPart : ℚ), 0)
    | '.' :: rest2 =>
      let frac := rest2.takeWhile (fun c => c.isDigit)
      let rest3 := rest2.dropWhile (fun c => c.isDigit)
      if intPart.isEmpty && frac.isEmpty then none
      else
        match parseExponent rest3 with
        | none => none
        | some e =>
          some ((charsToNat intPart : ℚ) + (charsToNat frac : ℚ) / 10 ^ frac.length, e)
    | _ =>
      match parseExponent rest with
      | none => none
      | some e => if intPart.isEmpty then none else some ((charsToNat intPart : ℚ), e)
  match mantissaExp with
  | none => .nan
  | some (m, e) => .num (sign * m * (10 : ℚ) ^ e)

/-- A run of digits in a non-decimal radix, or NaN. -/
def parseRadix (radix : Nat) (isDigitR : Char → Bool) (valR : Char → Nat)
    (ds : List Char) : JSNum :=
  if !ds.isEmpty && ds.all isDigitR then
    .num ((ds.foldl (fun acc c => acc * radix + valR c) 0 : Nat) : ℚ)
  else .nan

/-- `[0-9a-fA-F]`. -/
def isHexDigit (c : Char) : Bool :=
  c.isDigit || (97 ≤ c.toNat && c.toNat ≤ 102) || (65 ≤ c.toNat && c.toNat ≤ 70)

/-- Value of a hexadecimal digit character. -/
def hexVal (c : Char) : Nat :=
  if c.isDigit then digitVal c
  else if 97 ≤ c.toNat then c.toNat - 87
  else c.toNat - 55

/-- `[01]`. -/
def isBinDigit (c : Char) : Bool := c = '0' || c = '1'

/-- `[0-7]`. -/
def isOctDigit (c : Char) : Bool := 48 ≤ c.toNat && c.toNat ≤ 55

/-- `NonDecimalIntegerLiteral` of string-to-number conversion: `0x`/`0X`,
`0b`/`0B` or `0o`/`0O` followed by digits of that radix. These forms take
no sign, so they are only consulted on the unsigned branch. -/
def nonDecimalLiteral (t : List Char) : Option JSNum :=
  if t.head? = some '0' ∧ (t.tail.head? = some 'x' ∨ t.tail.head? = some 'X') then
    some (parseRadix 16 isHexDigit hexVal t.tail.tail)
  else if t.head? = some '0' ∧ (t.tail.head? = some 'b' ∨ t.tail.head? = some 'B') then
    some (parseRadix 2 isBinDigit digitVal t.tail.tail)
  else if t.head? = some '0' ∧ (t.tail.head? = some 'o' ∨ t.tail.head? = some 'O') then
    some (parseRadix 8 isOctDigit digitVal t.tail.tail)
  else none

/-- ECMAScript `ToNumber` on a string: trim whitespace, empty means zero,
then either a signed `Infinity`/decimal literal (with optional fraction and
exponent) or an unsigned hexadecimal, binary or octal integer literal. -/
def strToNumber (s : String) : JSNum :=
  let t := ((s.data.dropWhile isWhitespaceJS).reverse.dropWhile isWhitespaceJS).reverse
  if t = [] then .num 0
  else if t.head? = some '+' then
    (if t.tail = "Infinity".data then .posInf else parseDecimal 1 t.tail)
  else if t.head? = some '-' then
    (if t.tail = "Infinity".data then .negInf else parseDecimal (-1) t.tail)
  else
    match nonDecimalLiteral t with
    | some r => r
    | none => if t = "Infinity".data then .posInf else parseDecimal 1 t

/-- JavaScript `String(x)` on a primitive value. -/
def jsString : JSValue → String
  | .undefined => "undefined"
  | .null => "null"
  | .bool true => "true"
  | .bool false => "false"
  | .num n => jsNumToString n
  | .str s => s

/-- JavaScript `Number(x)` on a primitive value. -/
def jsToNumber : JSValue → JSNum
  | .undefined => .nan
  | .null => .num 0
  | .bool true => .num 1
  | .bool false => .num 0
  | .num n => n
  | .str s => strToNumber s

/-- JavaScript truthiness of a primitive value (the check `toString` applies
to the `prerelease` and `build` fields). -/
def jsTruthy : JSValue → Bool
  | .undefined => false
  | .null => false
  | .bool b => b
  | .num .nan => false
  | .num (.num q) => q ≠ 0
  | .num _ => true
  | .str s => s ≠ ""

/-- JavaScript binary `+`: string concatenation when either operand is a
string, numeric addition otherwise. -/
def jsAdd (l r : JSValue) : JSValue :=
  match l, r with
  | .str a, b => .str (a ++ jsString b)
  | a, .str b => .str (jsString a ++ b)
  | a, b => .num ((jsToNumber a).add (jsToNumber b))

/-- JavaScript binary `-`: always numeric. -/
def jsSub (l r : JSValue) : JSValue := .num ((jsToNumber l).sub (jsToNumber r))

/-- JavaScript binary `*`: always numeric. -/
def jsMul (l r : JSValue) : JSValue := .num ((jsToNumber l).mul (jsToNumber r))

/-- JavaScript binary `/`: always numeric. -/
def jsDiv (l r : JSValue) : JSValue := .num ((jsToNumber l).div (jsToNumber r))

/-! ## The SemVer 2.0 grammar

`SemVer.regexp` builds the anchored pattern

  `^(0|[1-9]\d*)\.(0|[1-9]\d*)\.(0|[1-9]\d*)`
  `(?:-((?:0|[1-9]\d*|\d*[a-zA-Z-][0-9a-zA-Z-]*)`
  `(?:\.(?:0|[1-9]\d*|\d*[a-zA-Z-][0-9a-zA-Z-]*))*))?`
  `(?:\+([0-9a-zA-Z-]+(?:\.[0-9a-zA-Z-]+)*))?$`

and `SemVer.test` runs `exec` on it. The embedding replaces the backtracking
regex by a deterministic parser, `semverExec`; the two agree because the
grammar is unambiguous once three observations are made:

1. `+` occurs in no character class of the pattern except as the literal
   build separator, so a string can match only if its first `+` (if any)
   separates the core from the build metadata, and no further `+` occurs.
2. Within the core (left of any `+`), `major`/`minor`/`patch` consist of
   digits only, so the first `-` (if any) must be the prerelease separator;
   later `-` characters are ordinary identifier characters.
3. Identifier characters are `[0-9a-zA-Z-]`, which excludes the separators
   `.` and `+`; hence every identifier a successful match assigns is a
   maximal separator-free run, and each of the regex's alternations
   `0|[1-9]\d*` (resp. `0|[1-9]\d*|\d*[a-zA-Z-][0-9a-zA-Z-]*`,
   `[0-9a-zA-Z-]+`) accepts such a maximal run exactly when the run is a
   numeric identifier without leading zero (resp. additionally any run
   containing a letter or hyphen, any nonempty run): a shorter match would
   leave an identifier character where the pattern next requires `.`/`+`/
   end-of-input, so backtracking cannot rescue it.
-/

/-- `[a-zA-Z]` of the pattern's identifier character classes. -/
def isAsciiLetter (c : Char) : Bool :=
  (65 ≤ c.toNat && c.toNat ≤ 90) || (97 ≤ c.toNat && c.toNat ≤ 122)

/-- `[0-9a-zA-Z-]`, the identifier character class of the pattern. -/
def isIdChar (c : Char) : Bool := c.isDigit || isAsciiLetter c || c = '-'

/-- Accepts exactly the strings matched by the pattern's numeric-identifier
alternation `0|[1-9]\d*` when followed by a non-digit: a nonempty digit run
that is `0` itself or has no leading zero. -/
def numericIdOk (cs : List Char) : Bool :=
  !cs.isEmpty && cs.all (fun c => c.isDigit) && (cs = ['0'] || cs.head? ≠ some '0')

/-- Accepts exactly the maximal identifier runs matched by the prerelease
alternation `0|[1-9]\d*|\d*[a-zA-Z-][0-9a-zA-Z-]*`: a nonempty run of
identifier characters that either contains a letter or hyphen or is a
numeric identifier without leading zero. -/
def preIdOk (cs : List Char) : Bool :=
  !cs.isEmpty && cs.all isIdChar && (!cs.all (fun c => c.isDigit) || numericIdOk cs)

/-- Accepts exactly the maximal identifier runs matched by the build
pattern `[0-9a-zA-Z-]+`: any nonempty run of identifier characters. -/
def buildIdOk (cs : List Char) : Bool :=
  !cs.isEmpty && cs.all isIdChar

/-- Split a character list at the first occurrence of `sep`: returns the
(separator-free) part before it and, when `sep` occurs, the part after it. -/
def splitFirst (sep : Char) : List Char → List Char × Option (List Char)
  | [] => ([], none)
  | c :: cs =>
    if c = sep then ([], some cs)
    else
      let p := splitFirst sep cs
      (c :: p.1, p.2)

/-- Accumulator worker for `splitOn`. -/
def splitOnAux (sep : Char) : List Char → List Char → List (List Char)
  | [], acc => [acc.reverse]
  | c :: cs, acc =>
    if c = sep then acc.reverse :: splitOnAux sep cs []
    else splitOnAux sep cs (c :: acc)

/-- Split a character list on every occurrence of `sep` (the dot-separated
identifier lists of the prerelease and build sections). -/
def splitOn (sep : Char) (cs : List Char) : List (List Char) := splitOnAux sep cs []

/-- Check a dot-separated identifier section against an identifier predicate;
an absent section (optional group not present) passes vacuously. -/
def checkOptIds (ok : List Char → Bool) : Option (List Char) → Bool
  | none => true
  | some p => (splitOn '.' p).all ok

/-- The five capture groups of a successful match of `SemVer.regexp`:
the three numeric parts and the raw prerelease and build sections
(each `none` when its optional group did not participate). -/
structure RegexCaptures where
  majorS : List Char
  minorS : List Char
  patchS : List Char
  preS : Option (List Char)
  buildS : Option (List Char)
deriving DecidableEq

/-- `SemVer.regexp.exec(s)`, deterministically: split the input at its first
`+` into core and build section, the core at its first `-` into the dotted
number part and the prerelease section, the number part at its first two
dots into the three numeric identifiers (rejecting a third dot), and
validate every section (see the module comment above for why this agrees
with the backtracking regex). -/
def semverExec (s : String) : Option RegexCaptures :=
  let core := (splitFirst '+' s.data).1
  let bld := (splitFirst '+' s.data).2
  let mmp := (splitFirst '-' core).1
  let pre := (splitFirst '-' core).2
  let d1 := (splitFirst '.' mmp).1
  match (splitFirst '.' mmp).2 with
  | none => none
  | some rest1 =>
    let d2 := (splitFirst '.' rest1).1
    match (splitFirst '.' rest1).2 with
    | none => none
    | some d3 =>
      if d3.contains '.' then none
      else if numericIdOk d1 && numericIdOk d2 && numericIdOk d3 &&
          checkOptIds preIdOk pre && checkOptIds buildIdOk bld then
        some ⟨d1, d2, d3, pre, bld⟩
      else none

/-! ## The SemVer class -/

/-- The error channel of the embedding: `TypeError` is the only error the
library ever constructs (`SemVer` constructor, line 28 of the source). -/
inductive JSError where
  | typeError : String → JSError
deriving DecidableEq

/-- The plain object returned by `SemVer.test` on a successful parse:
`parseInt` of the three numeric captures, the raw prerelease and build
capture strings (`undefined`, i.e. `none`, when the group was absent). -/
structure ParsedSemVer where
  major : JSNum
  minor : JSNum
  patch : JSNum
  prerelease : Option String
  build : Option String
deriving DecidableEq

/-- A `SemVer` instance. JavaScript objects are dynamically typed, so the
five version fields are modelled as arbitrary `JSValue`s; that the three
numeric fields in fact always hold numbers and the two text fields hold
`undefined` or a string is an invariant proved below, not a typing
assumption. -/
structure SemVer where
  input : String
  major : JSValue
  minor : JSValue
  patch : JSValue
  prerelease : JSValue
  build : JSValue
deriving DecidableEq

/-- `SemVer.kNumericParts` (the getter returns `[kMajor, kMinor, kPatch]`). -/
def kNumericParts : List String := ["major", "minor", "patch"]

/-- `SemVer.kAllParts`. -/
def kAllParts : List String := ["major", "minor", "patch", "prerelease", "build"]

/-- `SemVer.kOperatorNames`: the symbols of `[kAdd, kDivide, kMultiply,
kSubtract]`, in that order. -/
def kOperatorNames : List String := ["+", "/", "*", "-"]

/-- Lookup in `SemVer.kOperators` followed by application: the function
stored under the operator symbol, applied to the current part value and the
raw adjustment value (`adjustor(this[part], by)` — the source does not
coerce `by` before handing it to the operator function). Only ever invoked
with a symbol from `kOperatorNames`. -/
def applyOperator (operator : String) (l r : JSValue) : JSValue :=
  if operator = "+" then jsAdd l r
  else if operator = "/" then jsDiv l r
  else if operator = "*" then jsMul l r
  else jsSub l r

/-- Dynamic property read `this[part]` for the five version parts. -/
def SemVer.getPart (v : SemVer) (part : String) : JSValue :=
  if part = "major" then v.major
  else if part = "minor" then v.minor
  else if part = "patch" then v.patch
  else if part = "prerelease" then v.prerelease
  else if part = "build" then v.build
  else .undefined

/-- Dynamic property write `this[part] = x` for the five version parts
(the methods validate `part` against `kNumericParts`/`kAllParts` before
writing, so no other property is ever assigned). -/
def SemVer.setPart (v : SemVer) (part : String) (x : JSValue) : SemVer :=
  if part = "major" then { v with major := x }
  else if part = "minor" then { v with minor := x }
  else if part = "patch" then { v with patch := x }
  else if part = "prerelease" then { v with prerelease := x }
  else if part = "build" then { v with build := x }
  else v

/-- `SemVer.test(string)` (source lines 427-445): stringify the argument,
run the pattern, return `null` (`none`) on no match, and otherwise the
parsed object. (The source's `if (input)` guard tests the full-match
capture, which is nonempty for every successful match since `major` has at
least one character, so it is equivalent to the match having succeeded.) -/
def SemVer.test (x : JSValue) : Option ParsedSemVer :=
  match semverExec (jsString x) with
  | none => none
  | some c =>
    some ⟨.num (charsToNat c.majorS), .num (charsToNat c.minorS),
      .num (charsToNat c.patchS), c.preS.map List.asString, c.buildS.map List.asString⟩

/-- The constructor's input substitution (source lines 20-21): the loose
comparison `string == 'undefined'` between two strings is string equality. -/
def substituteUndefined (s : String) : String :=
  if s = "undefined" then "0.0.0" else s

/-- The `SemVer` constructor (source lines 15-38): stringify, substitute
`0.0.0` for the text `undefined`, parse via `SemVer.test`, throw a
`TypeError` on failure, otherwise store the input and copy the five parsed
fields onto the instance. -/
def SemVer.construct (x : JSValue) : Except JSError SemVer :=
  let s := substituteUndefined (jsString x)
  match SemVer.test (.str s) with
  | none => .error (.typeError "The supplied string is not a valid semver number.")
  | some r =>
    .ok ⟨s, .num r.major, .num r.minor, .num r.patch,
      (match r.prerelease with | none => .undefined | some p => .str p),
      (match r.build with | none => .undefined | some b => .str b)⟩

/-- `SemVer.prototype.adjustBy(part, by, operator = '+')` (source lines
117-133): `null` (`none`) and no mutation unless `part` is a numeric part
name, `operator` an operator symbol and `isFinite(by)` holds — the global
`isFinite`, which coerces its argument with `Number` first; otherwise
assign `this[part] = adjustor(this[part], by)` (with the raw, uncoerced
`by`) and return `this[part]`. The first component of the result is the
JavaScript return value, the second the post-call instance. -/
def SemVer.adjustBy (v : SemVer) (part : String) (by_ : JSValue) (operator : String) :
    Option JSValue × SemVer :=
  if !(kNumericParts.contains part) || !(kOperatorNames.contains operator)
      || !(jsToNumber by_).isFinite then
    (none, v)
  else
    let v' := v.setPart part (applyOperator operator (v.getPart part) by_)
    (some (v'.getPart part), v')

/-- `SemVer.prototype.adjustTo(part, to)` (source lines 164-183): `null`
for an unknown part name; for a numeric part, `Number` coercion with `null`
on NaN, else assign and return the coerced number; for a text part,
unconditional `String` coercion, assign and return it. -/
def SemVer.adjustTo (v : SemVer) (part : String) (to_ : JSValue) :
    Option JSValue × SemVer :=
  if !(kAllParts.contains part) then (none, v)
  else if kNumericParts.contains part then
    let value := jsToNumber to_
    if value.isNaN then (none, v)
    else (some (.num value), v.setPart part (.num value))
  else
    let value := jsString to_
    (some (.str value), v.setPart part (.str value))

/-- `SemVer.prototype.bump(part, by = 1)` (source lines 199-201): calls
`adjustBy(part, by)`, whose omitted operator defaults to `'+'`. -/
def SemVer.bump (v : SemVer) (part : String) (by_ : JSValue) : Option JSValue × SemVer :=
  v.adjustBy part by_ "+"

/-- `SemVer.prototype.toString()` (source lines 211-220): the template
literal renders each numeric field with `String`, and the prerelease and
build suffixes are included exactly when the field is truthy. -/
def SemVer.toString (v : SemVer) : String :=
  let pre := if jsTruthy v.prerelease then "-" ++ jsString v.prerelease else ""
  let bld := if jsTruthy v.build then "+" ++ jsString v.build else ""
  jsString v.major ++ "." ++ jsString v.minor ++ "." ++ jsString v.patch ++ pre ++ bld

/-- Decidable equality of `Except` results, so that concrete constructor
outcomes can be settled by `decide`. -/
instance {ε α : Type} [DecidableEq ε] [DecidableEq α] : DecidableEq (Except ε α)
  | .error e, .error f =>
    if h : e = f then .isTrue (by rw [h]) else .isFalse (fun hh => h (by cases hh; rfl))
  | .error _, .ok _ => .isFalse (fun hh => Except.noConfusion hh)
  | .ok _, .error _ => .isFalse (fun hh => Except.noConfusion hh)
  | .ok a, .ok b =>
    if h : a = b then .isTrue (by rw [h]) else .isFalse (fun hh => h (by cases hh; rfl))

/-! ## Derived state, invariant and frame definitions -/

/-- Rendering of an optional capture section with its leading separator. -/
def optSuffix (sep : Char) : Option (List Char) → List Char
  | none => []
  | some p => sep :: p

/-- The instance state the constructor produces from a match with captures
`c` on the (post-substitution) input `s`. -/
def versionOfCaptures (s : String) (c : RegexCaptures) : SemVer :=
  ⟨s, .num (.num (charsToNat c.majorS)), .num (.num (charsToNat c.minorS)),
    .num (.num (charsToNat c.patchS)),
    (match c.preS with | none => .undefined | some p => .str ⟨p⟩),
    (match c.buildS with | none => .undefined | some b => .str ⟨b⟩)⟩

/-- A concrete constructed instance used by the witnesses below. -/
def sampleVersion : SemVer :=
  ⟨"1.2.3", .num (.num 1), .num (.num 2), .num (.num 3), .undefined, .undefined⟩

/-- One mutating method call with its arguments. -/
inductive MutOp where
  | adjBy : String → JSNum → String → MutOp
  | adjTo : String → JSValue → MutOp
  | bmp : String → JSNum → MutOp

/-- The state after one mutating call (its return value discarded). The
claimed invariant quantifies over calls meeting each operation's
preconditions, so the amounts here are numbers, per the documented
`@param {number} by`. -/
def SemVer.applyOp (v : SemVer) : MutOp → SemVer
  | .adjBy part by_ operator => (v.adjustBy part (.num by_) operator).2
  | .adjTo part to_ => (v.adjustTo part to_).2
  | .bmp part by_ => (v.bump part (.num by_)).2

/-- The state after a sequence of mutating calls. -/
def SemVer.applyAll (v : SemVer) (ops : List MutOp) : SemVer :=
  ops.foldl SemVer.applyOp v

/-- The value is a JavaScript number. -/
def isNumValue : JSValue → Bool
  | .num _ => true
  | _ => false

/-- The value is `undefined` or a string. -/
def isTextValue : JSValue → Bool
  | .undefined => true
  | .str _ => true
  | _ => false

/-- The field-type invariant of a `SemVer` instance: `major`/`minor`/`patch`
hold numbers (of any sign, finiteness or fractionality — nothing clamps
them) and `prerelease`/`build` hold `undefined` or a string. -/
def SemVer.WF (v : SemVer) : Prop :=
  isNumValue v.major = true ∧ isNumValue v.minor = true ∧ isNumValue v.patch = true ∧
  isTextValue v.prerelease = true ∧ isTextValue v.build = true

/-- The state `v'` differs from `v` at most in the field named `part`:
every other version field, and the stored `input` attribute, is unchanged. -/
def framesOnly (v v' : SemVer) (part : String) : Prop :=
  v'.input = v.input ∧
  (part ≠ "major" → v'.major = v.major) ∧
  (part ≠ "minor" → v'.minor = v.minor) ∧
  (part ≠ "patch" → v'.patch = v.patch) ∧
  (part ≠ "prerelease" → v'.prerelease = v.prerelease) ∧
  (part ≠ "build" → v'.build = v.build)

/-! ## Lemmas about splitting and digit strings -/

theorem splitFirst_cons (sep c : Char) (cs : List Char) :
    splitFirst sep (c :: cs) =
      if c = sep then ([], some cs)
      else (c :: (splitFirst sep cs).1, (splitFirst sep cs).2) := rfl

theorem splitFirst_eq_some {sep : Char} {cs l r : List Char}
    (h : splitFirst sep cs = (l, some r)) : cs = l ++ sep :: r := by
  induction cs generalizing l r with
  | nil => exact absurd (congrArg Prod.snd h) (by simp [splitFirst])
  | cons c cs ih =>
    rw [splitFirst_cons] at h
    by_cases hc : c = sep
    · rw [if_pos hc] at h
      have h1 := congrArg Prod.fst h
      have h2 := congrArg Prod.snd h
      simp only [Option.some.injEq] at h1 h2
      rw [← h1, hc, h2]
      rfl
    · rw [if_neg hc] at h
      have h1 : c :: (splitFirst sep cs).1 = l := congrArg Prod.fst h
      have h2 : (splitFirst sep cs).2 = some r := congrArg Prod.snd h
      have hrec : cs = (splitFirst sep cs).1 ++ sep :: r := ih (by rw [← h2])
      rw [← h1, List.cons_append, ← hrec]

theorem splitFirst_eq_none {sep : Char} {cs l : List Char}
    (h : splitFirst sep cs = (l, none)) : cs = l := by
  induction cs generalizing l with
  | nil => simpa [splitFirst] using congrArg Prod.fst h
  | cons c cs ih =>
    rw [splitFirst_cons] at h
    by_cases hc : c = sep
    · rw [if_pos hc] at h
      exact absurd (congrArg Prod.snd h) (by simp)
    · rw [if_neg hc] at h
      have h1 : c :: (splitFirst sep cs).1 = l := congrArg Prod.fst h
      have h2 : (splitFirst sep cs).2 = none := congrArg Prod.snd h
      have hrec : cs = (splitFirst sep cs).1 := ih (by rw [← h2])
      rw [← h1, ← hrec]

theorem digit_toNat {c : Char} (h : c.isDigit = true) : 48 ≤ c.toNat ∧ c.toNat ≤ 57 := by
  simp only [Char.isDigit, Bool.and_eq_true, decide_eq_true_eq] at h
  exact ⟨h.1, h.2⟩

theorem digitChar_digitVal {c : Char} (h : c.isDigit = true) :
    digitChar (digitVal c) = c := by
  obtain ⟨h1, _⟩ := digit_toNat h
  have : 48 + digitVal c = c.toNat := by
    simp only [digitVal]; omega
  rw [digitChar, this, Char.ofNat_toNat]

theorem digitVal_lt_ten {c : Char} (h : c.isDigit = true) : digitVal c < 10 := by
  obtain ⟨h1, h2⟩ := digit_toNat h
  simp only [digitVal]; omega

theorem digitVal_eq_zero {c : Char} (h : c.isDigit = true) (h0 : digitVal c = 0) :
    c = '0' := by
  obtain ⟨h1, _⟩ := digit_toNat h
  have : c.toNat = 48 := by simp only [digitVal] at h0; omega
  have := congrArg Char.ofNat this
  rwa [Char.ofNat_toNat] at this

theorem natDigitsAux_eq : ∀ {fuel n : Nat}, n ≤ fuel →
    natDigitsAux fuel n = (Nat.digits 10 n).map digitChar := by
  intro fuel
  induction fuel with
  | zero =>
    intro n hn
    obtain rfl : n = 0 := Nat.le_zero.mp hn
    simp [natDigitsAux]
  | succ fuel ih =>
    intro n hn
    rcases n with _ | m
    · simp [natDigitsAux]
    · have hdiv : (m + 1) / 10 ≤ fuel := by
        have h1 : (m + 1) / 10 < m + 1 := Nat.div_lt_self (Nat.succ_pos m) (by norm_num)
        omega
      rw [show natDigitsAux (fuel + 1) (m + 1)
            = digitChar ((m + 1) % 10) :: natDigitsAux fuel ((m + 1) / 10) from rfl,
        Nat.digits_def' (by norm_num : (1 : ℕ) < 10) (Nat.succ_pos m),
        List.map_cons, ih hdiv]

/-- Core round trip for numeric identifiers: rendering the `parseInt` value
of a captured numeric identifier reproduces the identifier exactly. -/
theorem natDigitChars_charsToNat {d : List Char} (h : numericIdOk d = true) :
    natDigitChars (charsToNat d) = d := by
  simp only [numericIdOk, Bool.and_eq_true, Bool.or_eq_true, decide_eq_true_eq,
    List.all_eq_true, Bool.not_eq_true'] at h
  obtain ⟨⟨hne, hdig⟩, hz⟩ := h
  have hne' : d ≠ [] := by
    intro h0
    rw [h0] at hne
    simp [List.isEmpty] at hne
  rcases hz with rfl | hhead
  · rfl
  · have w₁ : ∀ l ∈ (d.map digitVal).reverse, l < 10 := by
      intro l hl
      rw [List.mem_reverse, List.mem_map] at hl
      obtain ⟨c, hc, rfl⟩ := hl
      exact digitVal_lt_ten (hdig c hc)
    have hLne : (d.map digitVal).reverse ≠ [] := by simp [hne']
    have w₂ : ∀ h : (d.map digitVal).reverse ≠ [], ((d.map digitVal).reverse).getLast h ≠ 0 := by
      intro hn h0
      have hq : ((d.map digitVal).reverse).getLast? = some (((d.map digitVal).reverse).getLast hn) :=
        List.getLast?_eq_getLast _ hn
      rw [List.getLast?_reverse, h0] at hq
      rcases d with _ | ⟨c, d'⟩
      · exact hne' rfl
      · simp only [List.map_cons, List.head?_cons, Option.some.injEq] at hq
        apply hhead
        rw [digitVal_eq_zero (hdig c (List.mem_cons_self c d')) hq]
        rfl
    have hdig10 : Nat.digits 10 (charsToNat d) = (d.map digitVal).reverse :=
      Nat.digits_ofDigits 10 (by norm_num) _ w₁ w₂
    have hne0 : charsToNat d ≠ 0 := by
      intro h0
      rw [h0] at hdig10
      exact hLne (by simpa using hdig10.symm)
    rw [natDigitChars, if_neg hne0, natDigitsAux_eq (le_refl _), hdig10,
      List.map_reverse, List.reverse_reverse, List.map_map]
    refine List.map_congr_left ?_ |>.trans (List.map_id d)
    intro c hc
    exact digitChar_digitVal (hdig c hc)

theorem splitFirst_append {sep : Char} {cs l : List Char} {r : Option (List Char)}
    (h : splitFirst sep cs = (l, r)) : cs = l ++ optSuffix sep r := by
  rcases r with _ | r
  · simpa [optSuffix] using splitFirst_eq_none h
  · exact splitFirst_eq_some h

/-- A successful match decomposes the input into its five captures with their
separators, and every capture satisfies its grammar fragment. -/
theorem semverExec_spec {s : String} {c : RegexCaptures} (h : semverExec s = some c) :
    s.data = c.majorS ++ '.' :: c.minorS ++ '.' :: c.patchS
        ++ optSuffix '-' c.preS ++ optSuffix '+' c.buildS ∧
    numericIdOk c.majorS = true ∧ numericIdOk c.minorS = true ∧
    numericIdOk c.patchS = true ∧
    checkOptIds preIdOk c.preS = true ∧ checkOptIds buildIdOk c.buildS = true := by
  simp only [semverExec] at h
  rcases h1 : splitFirst '+' s.data with ⟨core, bld⟩
  simp only [h1] at h
  rcases h2 : splitFirst '-' core with ⟨mmp, pre⟩
  simp only [h2] at h
  rcases h3 : splitFirst '.' mmp with ⟨d1, r1⟩
  simp only [h3] at h
  rcases r1 with _ | rest1
  · simp at h
  rcases h4 : splitFirst '.' rest1 with ⟨d2, r2⟩
  simp only [h4] at h
  rcases r2 with _ | d3
  · simp at h
  simp only [] at h
  split at h
  · simp at h
  split at h
  case isFalse => simp at h
  case isTrue hcond =>
    simp only [Option.some.injEq] at h
    subst h
    simp only [Bool.and_eq_true] at hcond
    obtain ⟨⟨⟨⟨hn1, hn2⟩, hn3⟩, hp⟩, hb⟩ := hcond
    refine ⟨?_, hn1, hn2, hn3, hp, hb⟩
    have e1 := splitFirst_append h1
    have e2 := splitFirst_append h2
    have e3 := splitFirst_eq_some h3
    have e4 := splitFirst_eq_some h4
    rw [e1, e2, e3, e4]
    simp

theorem jsString_natNum (n : ℕ) (h : n < 10 ^ 21) :
    jsString (.num (.num (n : ℚ))) = natToString n := by
  show ratToString (n : ℚ) = natToString n
  rw [ratToString, if_pos (Rat.den_natCast n), Rat.num_natCast, intToString,
    if_neg (by exact_mod_cast Nat.not_lt_zero n), Int.natAbs_ofNat, natNumToString,
    if_pos h]

theorem checkOptIds_some_ne_nil {ok : List Char → Bool} {p : List Char}
    (h : checkOptIds ok (some p) = true) (hnil : ok [] = false) : p ≠ [] := by
  intro h0
  subst h0
  rw [checkOptIds, show splitOn '.' [] = [[]] from rfl] at h
  simp [hnil] at h

theorem preIdOk_nil : preIdOk [] = false := rfl

theorem buildIdOk_nil : buildIdOk [] = false := rfl

/-- The absence-marker text itself is not a valid version string, so the
constructor's `0.0.0` substitution never masks a well-formed input. -/
theorem semverExec_undefined : semverExec "undefined" = none := by decide

theorem construct_of_exec {s : String} {c : RegexCaptures}
    (h : semverExec s = some c) :
    SemVer.construct (.str s) = .ok (versionOfCaptures s c) := by
  have hsu : substituteUndefined s = s := by
    rw [substituteUndefined, if_neg]
    intro h0
    rw [h0, semverExec_undefined] at h
    exact Option.noConfusion h
  have htest : SemVer.test (.str s) =
      some ⟨.num (charsToNat c.majorS), .num (charsToNat c.minorS),
        .num (charsToNat c.patchS), c.preS.map List.asString,
        c.buildS.map List.asString⟩ := by
    simp only [SemVer.test, jsString, h]
  simp only [SemVer.construct, jsString, hsu, htest, versionOfCaptures]
  rcases c.preS with _ | p <;> rcases c.buildS with _ | b <;> simp [List.asString]

theorem toString_versionOfCaptures {s : String} {c : RegexCaptures}
    (h : semverExec s = some c)
    (bm : charsToNat c.majorS < 10 ^ 21) (bn : charsToNat c.minorS < 10 ^ 21)
    (bp : charsToNat c.patchS < 10 ^ 21) :
    (versionOfCaptures s c).toString = s := by
  obtain ⟨hdata, hn1, hn2, hn3, hp, hb⟩ := semverExec_spec h
  have hmaj : jsString (versionOfCaptures s c).major = ⟨c.majorS⟩ := by
    show jsString (.num (.num _)) = _
    rw [jsString_natNum _ bm, natToString, natDigitChars_charsToNat hn1]
  have hmin : jsString (versionOfCaptures s c).minor = ⟨c.minorS⟩ := by
    show jsString (.num (.num _)) = _
    rw [jsString_natNum _ bn, natToString, natDigitChars_charsToNat hn2]
  have hpat : jsString (versionOfCaptures s c).patch = ⟨c.patchS⟩ := by
    show jsString (.num (.num _)) = _
    rw [jsString_natNum _ bp, natToString, natDigitChars_charsToNat hn3]
  apply String.ext
  rcases hpre : c.preS with _ | p <;> rcases hbld : c.buildS with _ | b <;>
    simp only [SemVer.toString] <;> rw [hmaj, hmin, hpat] <;>
    simp only [versionOfCaptures, hpre, hbld, optSuffix] at hdata ⊢
  · simp [jsTruthy, String.data_append, hdata]
  · have hbne : b ≠ [] := checkOptIds_some_ne_nil (hbld ▸ hb) buildIdOk_nil
    have hb' : (⟨b⟩ : String) ≠ "" := fun h0 => hbne (congrArg String.data h0)
    simp [jsTruthy, hb', String.data_append, hdata, jsString]
  · have hpne : p ≠ [] := checkOptIds_some_ne_nil (hpre ▸ hp) preIdOk_nil
    have hp' : (⟨p⟩ : String) ≠ "" := fun h0 => hpne (congrArg String.data h0)
    simp [jsTruthy, hp', String.data_append, hdata, jsString]
  · have hpne : p ≠ [] := checkOptIds_some_ne_nil (hpre ▸ hp) preIdOk_nil
    have hbne : b ≠ [] := checkOptIds_some_ne_nil (hbld ▸ hb) buildIdOk_nil
    have hp' : (⟨p⟩ : String) ≠ "" := fun h0 => hpne (congrArg String.data h0)
    have hb' : (⟨b⟩ : String) ≠ "" := fun h0 => hbne (congrArg String.data h0)
    simp [jsTruthy, hp', hb', String.data_append, hdata, jsString]

/-- C1, as corrected: the round trip fails as universally stated (see
`roundtrip_counterexample`: the engine renders a major of `1e21` in
exponential notation, and past `2^53` `parseInt` rounds to the nearest
double), but it holds for every accepted string whose three numeric parts
are safe integers, i.e. at most `Number.MAX_SAFE_INTEGER = 2^53 - 1`: there
construction succeeds and `toString()` returns exactly the input, the
constructor extracting the five parts and `toString` re-rendering them with
no information loss. -/
theorem construct_toString_roundtrip (s : String) (c : RegexCaptures)
    (h : semverExec s = some c)
    (bm : charsToNat c.majorS < 2 ^ 53) (bn : charsToNat c.minorS < 2 ^ 53)
    (bp : charsToNat c.patchS < 2 ^ 53) :
    ∃ v : SemVer, SemVer.construct (.str s) = .ok v ∧ v.toString = s :=
  have hlt : (2 : ℕ) ^ 53 < 10 ^ 21 := by norm_num
  ⟨versionOfCaptures s c, construct_of_exec h,
    toString_versionOfCaptures h (bm.trans hlt) (bn.trans hlt) (bp.trans hlt)⟩

/-- Counterexample to C1 as stated: the grammar accepts
`1000000000000000000000.0.0` (a 22-digit major with no leading zero), and
construction succeeds, but `toString()` renders the major part in
exponential notation, so the result is not the input. -/
theorem roundtrip_counterexample :
    (semverExec "1000000000000000000000.0.0").isSome = true ∧
    (SemVer.construct (.str "1000000000000000000000.0.0")).map SemVer.toString =
      .ok "1e+21.0.0" ∧
    "1e+21.0.0" ≠ "1000000000000000000000.0.0" := by
  decide

/-- Witness for the corrected C1 at the concrete input
`1.2.3-beta.1+build.456`. -/
theorem construct_toString_roundtrip_witness :
    ∃ v : SemVer, SemVer.construct (.str "1.2.3-beta.1+build.456") = .ok v ∧
      v.toString = "1.2.3-beta.1+build.456" :=
  construct_toString_roundtrip "1.2.3-beta.1+build.456"
    ⟨['1'], ['2'], ['3'], some "beta.1".data, some "build.456".data⟩ (by decide)
    (by decide) (by decide) (by decide)

/-- C2: each of the five strings `not.a.version`, `1.2`, `v1.2.3`,
`1.2.3.4` and `01.2.3` is rejected on both channels: `SemVer.test` returns
the absence marker (`null`) and constructing a `Version` from it throws. -/
theorem rejection_of_malformed_strings :
    (SemVer.test (.str "not.a.version") = none ∧
      SemVer.construct (.str "not.a.version") =
        .error (.typeError "The supplied string is not a valid semver number.")) ∧
    (SemVer.test (.str "1.2") = none ∧
      SemVer.construct (.str "1.2") =
        .error (.typeError "The supplied string is not a valid semver number.")) ∧
    (SemVer.test (.str "v1.2.3") = none ∧
      SemVer.construct (.str "v1.2.3") =
        .error (.typeError "The supplied string is not a valid semver number.")) ∧
    (SemVer.test (.str "1.2.3.4") = none ∧
      SemVer.construct (.str "1.2.3.4") =
        .error (.typeError "The supplied string is not a valid semver number.")) ∧
    (SemVer.test (.str "01.2.3") = none ∧
      SemVer.construct (.str "01.2.3") =
        .error (.typeError "The supplied string is not a valid semver number.")) := by
  decide

theorem contains_numeric (part : String) :
    kNumericParts.contains part = true ↔
      (part = "major" ∨ part = "minor" ∨ part = "patch") := by
  simp [kNumericParts]

theorem contains_all (part : String) :
    kAllParts.contains part = true ↔
      (part = "major" ∨ part = "minor" ∨ part = "patch" ∨
        part = "prerelease" ∨ part = "build") := by
  simp [kAllParts]

theorem contains_operator (operator : String) :
    kOperatorNames.contains operator = true ↔
      (operator = "+" ∨ operator = "/" ∨ operator = "*" ∨ operator = "-") := by
  simp [kOperatorNames]

theorem jsString_str (s : String) : jsString (.str s) = s := rfl

theorem getPart_setPart (v : SemVer) {part : String}
    (h : part ∈ kAllParts) (x : JSValue) :
    (v.setPart part x).getPart part = x := by
  simp only [kAllParts, List.mem_cons, List.not_mem_nil, or_false] at h
  rcases h with rfl | rfl | rfl | rfl | rfl <;> simp [SemVer.getPart, SemVer.setPart]

theorem numeric_mem_all {part : String}
    (h : part ∈ kNumericParts) : part ∈ kAllParts := by
  simp only [kNumericParts, List.mem_cons, List.not_mem_nil, or_false] at h
  rcases h with rfl | rfl | rfl <;> decide

/-- The constructor as a function of the match result on the substituted,
stringified input. -/
theorem construct_eq (x : JSValue) :
    SemVer.construct x =
      match semverExec (substituteUndefined (jsString x)) with
      | none => .error (.typeError "The supplied string is not a valid semver number.")
      | some c => .ok (versionOfCaptures (substituteUndefined (jsString x)) c) := by
  rcases h : semverExec (substituteUndefined (jsString x)) with _ | c
  · simp only [SemVer.construct, SemVer.test, jsString_str, h]
  · simp only [SemVer.construct, SemVer.test, jsString_str, h, versionOfCaptures]
    rcases c.preS with _ | p <;> rcases c.buildS with _ | b <;> simp [List.asString]

/-- C5: `adjustBy` with a part name other than `major`/`minor`/`patch`
(including `prerelease` and `build`), or an operator outside `+ / * -`, or a
non-finite amount, returns the absence marker and leaves every field
unchanged; on valid arguments it replaces the named part with
`operator(currentValue, amount)` and returns the new value. -/
theorem adjustBy_contract (v : SemVer) (part operator : String) (by_ : JSNum) :
    ((¬(part = "major" ∨ part = "minor" ∨ part = "patch") ∨
      ¬(operator = "+" ∨ operator = "/" ∨ operator = "*" ∨ operator = "-") ∨
      by_.isFinite = false) →
      v.adjustBy part (.num by_) operator = (none, v)) ∧
    ((part = "major" ∨ part = "minor" ∨ part = "patch") →
      (operator = "+" ∨ operator = "/" ∨ operator = "*" ∨ operator = "-") →
      by_.isFinite = true →
      v.adjustBy part (.num by_) operator =
        (some (applyOperator operator (v.getPart part) (.num by_)),
         v.setPart part (applyOperator operator (v.getPart part) (.num by_)))) := by
  constructor
  · intro h
    have hc : (!(kNumericParts.contains part) || !(kOperatorNames.contains operator)
        || !(jsToNumber (.num by_)).isFinite) = true := by
      rcases h with h | h | h
      · have hm : part ∉ kNumericParts := by simpa [kNumericParts] using h
        simp [hm]
      · have hm : operator ∉ kOperatorNames := by simpa [kOperatorNames] using h
        simp [hm]
      · simp [jsToNumber, h]
    rw [SemVer.adjustBy, if_pos hc]
  · intro hp ho hf
    have h1 : part ∈ kNumericParts := by
      rcases hp with rfl | rfl | rfl <;> decide
    have h2 : operator ∈ kOperatorNames := by
      rcases ho with rfl | rfl | rfl | rfl <;> decide
    have hAll : part ∈ kAllParts := numeric_mem_all h1
    simp [SemVer.adjustBy, jsToNumber, h1, h2, hf, getPart_setPart v hAll]

/-- Witness for C5: adjusting `minor` by 1 with `-` on a concrete instance,
and the absence results for a bad part and a non-finite amount. -/
theorem adjustBy_contract_witness :
    sampleVersion.adjustBy "minor" (.num (.num 1)) "-" =
      (some (applyOperator "-" (sampleVersion.getPart "minor") (.num (.num 1))),
        sampleVersion.setPart "minor"
          (applyOperator "-" (sampleVersion.getPart "minor") (.num (.num 1)))) ∧
    sampleVersion.adjustBy "prerelease" (.num (.num 1)) "+" = (none, sampleVersion) ∧
    sampleVersion.adjustBy "major" (.num .posInf) "+" = (none, sampleVersion) :=
  ⟨(adjustBy_contract sampleVersion "minor" "-" (.num 1)).2 (by decide) (by decide)
      (by decide),
   (adjustBy_contract sampleVersion "prerelease" "+" (.num 1)).1 (by decide),
   (adjustBy_contract sampleVersion "major" "+" .posInf).1 (by decide)⟩

theorem digit_not_ws {c : Char} (h : c.isDigit = true) : isWhitespaceJS c = false := by
  obtain ⟨h1, h2⟩ := digit_toNat h
  by_contra hc
  have hws : isWhitespaceJS c = true := by revert hc; cases isWhitespaceJS c <;> simp
  rw [isWhitespaceJS] at hws
  simp at hws
  omega

theorem dropWhile_ws_of_digits {l : List Char} (h : ∀ c ∈ l, c.isDigit = true) :
    l.dropWhile isWhitespaceJS = l := by
  rcases l with _ | ⟨c, cs⟩
  · rfl
  · simp [List.dropWhile_cons, digit_not_ws (h c (by simp))]

/-- ECMAScript `Number` applied to a nonempty string of decimal digits is
its base-10 value (the clause behind `adjustTo` accepting digit strings). -/
theorem strToNumber_digits {d : List Char} (hne : d ≠ [])
    (hdig : ∀ c ∈ d, c.isDigit = true) :
    strToNumber ⟨d⟩ = .num ((charsToNat d : ℚ)) := by
  have ht : ((d.dropWhile isWhitespaceJS).reverse.dropWhile isWhitespaceJS).reverse = d := by
    rw [dropWhile_ws_of_digits hdig, dropWhile_ws_of_digits (fun c hc => hdig c
      (List.mem_reverse.mp hc)), List.reverse_reverse]
  obtain ⟨c, cs, rfl⟩ : ∃ c cs, d = c :: cs := by
    rcases d with _ | ⟨c, cs⟩
    · exact absurd rfl hne
    · exact ⟨c, cs, rfl⟩
  have hcd := hdig c (by simp)
  obtain ⟨hc1, hc2⟩ := digit_toNat hcd
  have hplus : c ≠ '+' := by intro h0; subst h0; revert hc1; decide
  have hminus : c ≠ '-' := by intro h0; subst h0; revert hc1; decide
  have hinf : c :: cs ≠ "Infinity".data := by
    intro h0
    have : c = 'I' := by
      have := congrArg List.head? h0
      simpa using this
    subst this
    revert hc2
    decide
  have htake : (c :: cs).takeWhile (fun ch => ch.isDigit) = c :: cs :=
    List.takeWhile_eq_self_iff.mpr hdig
  have hdrop : (c :: cs).dropWhile (fun ch => ch.isDigit) = [] :=
    List.dropWhile_eq_nil_iff.mpr hdig
  have hnd : nonDecimalLiteral (c :: cs) = none := by
    rw [nonDecimalLiteral]
    rcases cs with _ | ⟨c2, cs'⟩
    · simp
    · have hcd2 := hdig c2 (by simp)
      obtain ⟨hd1, hd2⟩ := digit_toNat hcd2
      have hx1 : c2 ≠ 'x' := by intro h0; subst h0; revert hd2; decide
      have hx2 : c2 ≠ 'X' := by intro h0; subst h0; revert hd2; decide
      have hx3 : c2 ≠ 'b' := by intro h0; subst h0; revert hd2; decide
      have hx4 : c2 ≠ 'B' := by intro h0; subst h0; revert hd2; decide
      have hx5 : c2 ≠ 'o' := by intro h0; subst h0; revert hd2; decide
      have hx6 : c2 ≠ 'O' := by intro h0; subst h0; revert hd2; decide
      simp [hx1, hx2, hx3, hx4, hx5, hx6]
  rw [strToNumber]
  simp only [String.data]
  rw [ht]
  rw [if_neg hne, if_neg (by simp [hplus]), if_neg (by simp [hminus])]
  simp only [hnd]
  rw [if_neg hinf, parseDecimal]
  simp only [htake, hdrop]
  simp [hne]

/-- C6: `adjustTo` on a numeric part coerces the value to a number, returns
the absence marker with no mutation when the coercion yields NaN, and
otherwise assigns and returns the coerced number — digit strings are
accepted, as the final clause states; on a textual part it always succeeds,
coercing the value to text, assigning and returning it; an unrecognised
part name returns the absence marker with no mutation. -/
theorem adjustTo_contract (v : SemVer) (part : String) (to_ : JSValue) :
    ((part = "major" ∨ part = "minor" ∨ part = "patch") →
      (((jsToNumber to_).isNaN = true → v.adjustTo part to_ = (none, v)) ∧
       ((jsToNumber to_).isNaN = false →
         v.adjustTo part to_ =
           (some (.num (jsToNumber to_)), v.setPart part (.num (jsToNumber to_)))))) ∧
    ((part = "prerelease" ∨ part = "build") →
      v.adjustTo part to_ =
        (some (.str (jsString to_)), v.setPart part (.str (jsString to_)))) ∧
    (¬(part = "major" ∨ part = "minor" ∨ part = "patch" ∨
        part = "prerelease" ∨ part = "build") →
      v.adjustTo part to_ = (none, v)) ∧
    (∀ d : List Char, d ≠ [] → (∀ c ∈ d, c.isDigit = true) →
      jsToNumber (.str ⟨d⟩) = .num ((charsToNat d : ℚ))) := by
  refine ⟨?_, ?_, ?_, fun d h1 h2 => strToNumber_digits h1 h2⟩
  · intro hp
    have h1 : part ∈ kNumericParts := by rcases hp with rfl | rfl | rfl <;> decide
    have h2 : part ∈ kAllParts := numeric_mem_all h1
    constructor
    · intro hn
      simp [SemVer.adjustTo, h1, h2, hn]
    · intro hn
      simp [SemVer.adjustTo, h1, h2, hn]
  · intro hp
    have h1 : part ∉ kNumericParts := by
      rcases hp with rfl | rfl <;> decide
    have h2 : part ∈ kAllParts := by
      rcases hp with rfl | rfl <;> decide
    simp [SemVer.adjustTo, h1, h2]
  · intro hp
    have h2 : part ∉ kAllParts := by simpa [kAllParts] using hp
    simp [SemVer.adjustTo, h2]

/-- Witness for C6: setting `major` from the digit string `10` and from the
exponent literal `1e3`, setting `prerelease` from the number `123`, and the
absence results for a NaN coercion and an unknown part, on a concrete
instance. -/
theorem adjustTo_contract_witness :
    sampleVersion.adjustTo "major" (.str "10") =
      (some (.num (jsToNumber (.str "10"))),
        sampleVersion.setPart "major" (.num (jsToNumber (.str "10")))) ∧
    sampleVersion.adjustTo "major" (.str "1e3") =
      (some (.num (jsToNumber (.str "1e3"))),
        sampleVersion.setPart "major" (.num (jsToNumber (.str "1e3")))) ∧
    sampleVersion.adjustTo "prerelease" (.num (.num 123)) =
      (some (.str (jsString (.num (.num 123)))),
        sampleVersion.setPart "prerelease" (.str (jsString (.num (.num 123))))) ∧
    sampleVersion.adjustTo "major" (.str "not-a-number") = (none, sampleVersion) ∧
    sampleVersion.adjustTo "input" (.num (.num 1)) = (none, sampleVersion) :=
  ⟨((adjustTo_contract sampleVersion "major" (.str "10")).1 (Or.inl rfl)).2 (by decide),
   ((adjustTo_contract sampleVersion "major" (.str "1e3")).1 (Or.inl rfl)).2 (by decide),
   (adjustTo_contract sampleVersion "prerelease" (.num (.num 123))).2.1 (Or.inl rfl),
   ((adjustTo_contract sampleVersion "major" (.str "not-a-number")).1 (Or.inl rfl)).1
     (by decide),
   (adjustTo_contract sampleVersion "input" (.num (.num 1))).2.2.1 (by decide)⟩

/-- C7: `toString` renders `major.minor.patch`, appending `-prerelease`
exactly when `prerelease` is truthy and `+build` exactly when `build` is
truthy; in particular an empty-string prerelease or build is omitted, the
same as an absent one (truthiness, not definedness). -/
theorem toString_contract (v : SemVer) :
    (v.toString = jsString v.major ++ "." ++ jsString v.minor ++ "." ++ jsString v.patch
      ++ (if jsTruthy v.prerelease = true then "-" ++ jsString v.prerelease else "")
      ++ (if jsTruthy v.build = true then "+" ++ jsString v.build else "")) ∧
    ({ v with prerelease := .str "" }.toString = { v with prerelease := .undefined }.toString) ∧
    ({ v with build := .str "" }.toString = { v with build := .undefined }.toString) := by
  refine ⟨rfl, ?_, ?_⟩ <;> simp [SemVer.toString, jsTruthy]

/-- C8: constructing from an input whose stringified form is exactly
`undefined` does not fail: the input is replaced by `0.0.0`, giving major,
minor and patch 0 and absent prerelease and build. -/
theorem construct_of_undefined_text (x : JSValue) (h : jsString x = "undefined") :
    SemVer.construct x =
      .ok ⟨"0.0.0", .num (.num 0), .num (.num 0), .num (.num 0), .undefined, .undefined⟩ := by
  rw [construct_eq x, h]
  have he : semverExec (substituteUndefined "undefined") =
      some ⟨['0'], ['0'], ['0'], none, none⟩ := by decide
  rw [he]
  decide

/-- Witness for C8: the undefined value itself stringifies to `undefined`. -/
theorem construct_of_undefined_text_witness :
    SemVer.construct .undefined =
      .ok ⟨"0.0.0", .num (.num 0), .num (.num 0), .num (.num 0), .undefined, .undefined⟩ :=
  construct_of_undefined_text .undefined rfl

/-! ## Mutation sequences and invariants -/

theorem applyOperator_num (operator : String) (a r : JSNum) :
    isNumValue (applyOperator operator (.num a) (.num r)) = true := by
  rw [applyOperator]
  split
  · simp [jsAdd, isNumValue]
  split
  · simp [jsDiv, isNumValue]
  split
  · simp [jsMul, isNumValue]
  · simp [jsSub, isNumValue]

theorem isNumValue_num {x : JSValue} (hx : isNumValue x = true) :
    ∃ n, x = .num n := by
  rcases x with _ | _ | b | n | s
  · exact absurd hx (by simp [isNumValue])
  · exact absurd hx (by simp [isNumValue])
  · exact absurd hx (by simp [isNumValue])
  · exact ⟨n, rfl⟩
  · exact absurd hx (by simp [isNumValue])

theorem WF_setPart_num {v : SemVer} (h : v.WF) {part : String}
    (hp : part ∈ kNumericParts) {x : JSValue} (hx : isNumValue x = true) :
    (v.setPart part x).WF := by
  obtain ⟨h1, h2, h3, h4, h5⟩ := h
  simp only [kNumericParts, List.mem_cons, List.not_mem_nil, or_false] at hp
  rcases hp with rfl | rfl | rfl <;>
    refine ⟨?_, ?_, ?_, ?_, ?_⟩ <;> simp [SemVer.setPart] <;> assumption

theorem WF_setPart_text {v : SemVer} (h : v.WF) {part : String}
    (hp : part = "prerelease" ∨ part = "build") {x : JSValue}
    (hx : isTextValue x = true) : (v.setPart part x).WF := by
  obtain ⟨h1, h2, h3, h4, h5⟩ := h
  rcases hp with rfl | rfl <;>
    refine ⟨?_, ?_, ?_, ?_, ?_⟩ <;> simp [SemVer.setPart] <;> assumption

theorem WF_adjustBy {v : SemVer} (h : v.WF) (part operator : String) (by_ : JSNum) :
    ((v.adjustBy part (.num by_) operator).2).WF := by
  by_cases hc : (!(kNumericParts.contains part) || !(kOperatorNames.contains operator)
      || !(jsToNumber (.num by_)).isFinite) = true
  · rw [SemVer.adjustBy, if_pos hc]
    exact h
  · have hc' := hc
    simp only [Bool.or_eq_true, Bool.not_eq_true', not_or, Bool.not_eq_false] at hc'
    obtain ⟨⟨hp, _⟩, _⟩ := hc'
    have hpmem : part ∈ kNumericParts := by simpa using hp
    have hget : ∃ a, v.getPart part = .num a := by
      obtain ⟨h1, h2, h3, _, _⟩ := h
      have hpmem' := hpmem
      simp only [kNumericParts, List.mem_cons, List.not_mem_nil, or_false] at hpmem'
      rcases hpmem' with rfl | rfl | rfl
      · obtain ⟨n, hn⟩ := isNumValue_num h1
        exact ⟨n, by simp [SemVer.getPart, hn]⟩
      · obtain ⟨n, hn⟩ := isNumValue_num h2
        exact ⟨n, by simp [SemVer.getPart, hn]⟩
      · obtain ⟨n, hn⟩ := isNumValue_num h3
        exact ⟨n, by simp [SemVer.getPart, hn]⟩
    obtain ⟨a, ha⟩ := hget
    rw [SemVer.adjustBy, if_neg hc]
    exact WF_setPart_num h hpmem (by rw [ha]; exact applyOperator_num ..)

theorem WF_adjustTo {v : SemVer} (h : v.WF) (part : String) (to_ : JSValue) :
    ((v.adjustTo part to_).2).WF := by
  by_cases ha : part ∈ kAllParts
  · by_cases hp : part ∈ kNumericParts
    · by_cases hn : (jsToNumber to_).isNaN = true
      · simpa [SemVer.adjustTo, ha, hp, hn] using h
      · have : (v.setPart part (.num (jsToNumber to_))).WF :=
          WF_setPart_num h hp (by simp [isNumValue])
        simpa [SemVer.adjustTo, ha, hp, hn] using this
    · have htext : part = "prerelease" ∨ part = "build" := by
        simp only [kAllParts, List.mem_cons, List.not_mem_nil, or_false] at ha
        simp only [kNumericParts, List.mem_cons, List.not_mem_nil, or_false, not_or] at hp
        rcases ha with rfl | rfl | rfl | rfl | rfl
        · exact absurd rfl hp.1
        · exact absurd rfl hp.2.1
        · exact absurd rfl hp.2.2
        · exact Or.inl rfl
        · exact Or.inr rfl
      have hset : (v.setPart part (.str (jsString to_))).WF :=
        WF_setPart_text h htext (by simp [isTextValue])
      have hp' : part ∉ kNumericParts := hp
      simpa [SemVer.adjustTo, ha, hp'] using hset
  · simpa [SemVer.adjustTo, ha] using h

theorem WF_applyOp {v : SemVer} (h : v.WF) (op : MutOp) : (v.applyOp op).WF := by
  rcases op with ⟨part, by_, operator⟩ | ⟨part, to_⟩ | ⟨part, by_⟩
  · exact WF_adjustBy h part operator by_
  · exact WF_adjustTo h part to_
  · exact WF_adjustBy h part "+" by_

/-- C9: every constructed instance satisfies the field-type invariant, and
the invariant is preserved by every sequence of `adjustBy`/`adjustTo`/
`bump` calls: the numeric fields keep holding numbers (possibly negative or
fractional — nothing clamps them back into SemVer range) and
`prerelease`/`build` keep holding `undefined` or a string. -/
theorem fields_invariant :
    (∀ (x : JSValue) (v : SemVer), SemVer.construct x = .ok v → v.WF) ∧
    (∀ (v : SemVer) (ops : List MutOp), v.WF → (v.applyAll ops).WF) := by
  constructor
  · intro x v h
    rw [construct_eq x] at h
    rcases he : semverExec (substituteUndefined (jsString x)) with _ | c
    · rw [he] at h
      exact Except.noConfusion h
    · rw [he] at h
      simp only [Except.ok.injEq] at h
      subst h
      rcases hps : c.preS with _ | p <;> rcases hbs : c.buildS with _ | b <;>
        simp [versionOfCaptures, SemVer.WF, isNumValue, isTextValue, hps, hbs]
  · intro v ops
    induction ops generalizing v with
    | nil => exact fun h => h
    | cons op ops ih =>
      intro h
      exact ih (v.applyOp op) (WF_applyOp h op)

/-- Witness for C9: the invariant holds after a concrete mutation sequence
on a constructed instance. -/
theorem fields_invariant_witness :
    sampleVersion.WF ∧
    (sampleVersion.applyAll
      [.adjBy "major" (.num 1) "+", .adjTo "prerelease" (.str "x"),
        .bmp "patch" (.num 2), .adjBy "minor" (.num 2) "/"]).WF :=
  ⟨fields_invariant.1 (.str "1.2.3") sampleVersion (by decide),
   fields_invariant.2 sampleVersion _
     (fields_invariant.1 (.str "1.2.3") sampleVersion (by decide))⟩

/-! ## Frame property -/

theorem framesOnly_setPart (v : SemVer) (part : String) (x : JSValue) :
    framesOnly v (v.setPart part x) part := by
  by_cases h1 : part = "major"
  · subst h1; simp [framesOnly, SemVer.setPart]
  by_cases h2 : part = "minor"
  · subst h2; simp [framesOnly, SemVer.setPart]
  by_cases h3 : part = "patch"
  · subst h3; simp [framesOnly, SemVer.setPart]
  by_cases h4 : part = "prerelease"
  · subst h4; simp [framesOnly, SemVer.setPart]
  by_cases h5 : part = "build"
  · subst h5; simp [framesOnly, SemVer.setPart]
  · simp [framesOnly, SemVer.setPart, h1, h2, h3, h4, h5]

/-- C10: a successful `adjustBy`, `bump` or `adjustTo` call modifies only
the single field named by `part`; each of the other four version fields and
the stored `input` attribute holds the same value after the call as before. -/
theorem frame_property (v : SemVer) (part operator : String) (by_ to_ : JSValue) :
    ((v.adjustBy part by_ operator).1.isSome = true →
      framesOnly v (v.adjustBy part by_ operator).2 part) ∧
    ((v.bump part by_).1.isSome = true →
      framesOnly v (v.bump part by_).2 part) ∧
    ((v.adjustTo part to_).1.isSome = true →
      framesOnly v (v.adjustTo part to_).2 part) := by
  have hBy : ∀ operator', (v.adjustBy part by_ operator').1.isSome = true →
      framesOnly v (v.adjustBy part by_ operator').2 part := by
    intro operator' hs
    by_cases hc : (!(kNumericParts.contains part) || !(kOperatorNames.contains operator')
        || !(jsToNumber by_).isFinite) = true
    · rw [SemVer.adjustBy, if_pos hc] at hs
      exact absurd hs (by simp)
    · rw [SemVer.adjustBy, if_neg hc]
      exact framesOnly_setPart v part _
  refine ⟨hBy operator, hBy "+", ?_⟩
  intro hs
  by_cases ha : part ∈ kAllParts
  · by_cases hp : part ∈ kNumericParts
    · by_cases hn : (jsToNumber to_).isNaN = true
      · rw [SemVer.adjustTo] at hs
        simp [ha, hp, hn] at hs
      · have : (v.adjustTo part to_).2 = v.setPart part (.num (jsToNumber to_)) := by
          simp [SemVer.adjustTo, ha, hp, hn]
        rw [this]
        exact framesOnly_setPart v part _
    · have : (v.adjustTo part to_).2 = v.setPart part (.str (jsString to_)) := by
        simp [SemVer.adjustTo, ha, hp]
      rw [this]
      exact framesOnly_setPart v part _
  · rw [SemVer.adjustTo] at hs
    simp [ha] at hs

/-- Witness for C10: frame facts for a concrete successful call of each of
the three methods. -/
theorem frame_property_witness :
    framesOnly sampleVersion
      (sampleVersion.adjustBy "major" (.num (.num 1)) "+").2 "major" ∧
    framesOnly sampleVersion (sampleVersion.bump "patch" (.num (.num 1))).2 "patch" ∧
    framesOnly sampleVersion (sampleVersion.adjustTo "prerelease" (.str "x")).2
      "prerelease" :=
  ⟨(frame_property sampleVersion "major" "+" (.num (.num 1)) (.str "x")).1 (by decide),
   (frame_property sampleVersion "patch" "+" (.num (.num 1)) (.str "x")).2.1 (by decide),
   (frame_property sampleVersion "prerelease" "+" (.num (.num 1)) (.str "x")).2.2
     (by decide)⟩

end NeSemver
